import Mathlib

/-
Verification of the change-capture-and-snapshot pipeline of the gitbutler
prototype: the Delta Recorder's edit-operation model, the session replay
round-trip law, the Snapshot Writer's flush, and the tauri command layer
from src-tauri/src/main.rs (list_project_files, read_project_file,
add_project, delete_project, list_deltas).

The command bodies are embedded directly from main.rs.  The modules they
call (deltas.rs, watchers.rs, sessions.rs, projects.rs) are not part of the
available sources; where a claim depends on them the corresponding
definition is modelled from the spec and marked as such in its doc comment.
-/

namespace GitButler

/-! ## Content and edit operations (Delta Recorder data model)

File content is a sequence of content units (spec §3: offsets are in
content-units of the pre-operation content). -/

abbrev Content := List Char

/-- Modelled from the spec: `Operation` is a tagged variant over
`Insert{offset, text}` and `Delete{offset, length}` (spec §3); deltas.rs is
not in the available sources. -/
inductive Operation where
  | insert (offset : Nat) (text : Content)
  | delete (offset : Nat) (length : Nat)
deriving DecidableEq

/-- Modelled from the spec: operations within one delta apply in listed
order against successively-updated content (spec §3); an insert splices
`text` at `offset`, a delete removes `length` units at `offset`. -/
def applyOperation (s : Content) : Operation → Content
  | .insert off t => s.take off ++ t ++ s.drop off
  | .delete off n => s.take off ++ s.drop (off + n)

/-- Modelled from the spec: `Delta = {timestamp, operations}` (spec §3). -/
structure Delta where
  timestamp : Nat
  operations : List Operation
deriving DecidableEq

/-- Applying a delta applies its operations in listed order. -/
def applyDelta (s : Content) (d : Delta) : Content :=
  d.operations.foldl applyOperation s

/-- Length of the longest common prefix of two contents. -/
def commonPrefixLen : Content → Content → Nat
  | [], _ => 0
  | _ :: _, [] => 0
  | a :: as, b :: bs => if a = b then commonPrefixLen as bs + 1 else 0

/-- Build the edit script from the trimmed decomposition: one contiguous
delete (when the old middle is non-empty) followed by one contiguous insert
(when the new middle is non-empty). -/
def trimOps (p delLen : Nat) (insText : Content) : List Operation :=
  (if delLen = 0 then [] else [Operation.delete p delLen]) ++
    (if insText.isEmpty then [] else [Operation.insert p insText])

/-- Modelled from the spec: the Delta Recorder computes a deterministic,
minimal LCS-style edit script transforming the old content into the new
one, preferring fewer contiguous operations (spec §4.2); deltas.rs is not
in the available sources.  The script trims the common prefix and the
common suffix of the remainder and replaces the differing middle. -/
def diffOps (old nc : Content) : List Operation :=
  let p := commonPrefixLen old nc
  let s := commonPrefixLen (old.drop p).reverse (nc.drop p).reverse
  trimOps p (old.length - p - s) ((nc.drop p).take (nc.length - p - s))

/-- Modelled from the spec: `record` turns one observed file mutation into
a `Delta{now, operations}`; absent new content (a deletion) diffs against
empty content (spec §4.1: "absent content = file deleted", §4.2). -/
def record (t : Nat) (old : Content) (newContent : Option Content) : Delta :=
  ⟨t, diffOps old (newContent.getD [])⟩

/-! ## Basic facts about the diff -/

theorem commonPrefixLen_le_left : ∀ a b : Content, commonPrefixLen a b ≤ a.length
  | [], _ => by simp [commonPrefixLen]
  | _ :: _, [] => by simp [commonPrefixLen]
  | a :: as, b :: bs => by
    by_cases h : a = b
    · simpa [commonPrefixLen, h, Nat.succ_le_succ_iff] using commonPrefixLen_le_left as bs
    · simp [commonPrefixLen, h]

theorem commonPrefixLen_le_right : ∀ a b : Content, commonPrefixLen a b ≤ b.length
  | [], _ => by simp [commonPrefixLen]
  | _ :: _, [] => by simp [commonPrefixLen]
  | a :: as, b :: bs => by
    by_cases h : a = b
    · simpa [commonPrefixLen, h, Nat.succ_le_succ_iff] using commonPrefixLen_le_right as bs
    · simp [commonPrefixLen, h]

theorem commonPrefixLen_take : ∀ a b : Content,
    a.take (commonPrefixLen a b) = b.take (commonPrefixLen a b)
  | [], _ => by simp [commonPrefixLen]
  | _ :: _, [] => by simp [commonPrefixLen]
  | a :: as, b :: bs => by
    by_cases h : a = b
    · simp only [commonPrefixLen, if_pos h, List.take_succ_cons, h]
      exact congrArg (b :: ·) (commonPrefixLen_take as bs)
    · simp [commonPrefixLen, h]

theorem commonPrefixLen_nil_right : ∀ a : Content, commonPrefixLen a [] = 0
  | [] => rfl
  | _ :: _ => rfl

theorem take_len_append (P S : Content) : (P ++ S).take P.length = P :=
  List.take_left' rfl

theorem drop_len_append (P S : Content) : (P ++ S).drop P.length = S :=
  List.drop_left' rfl

theorem apply_delete_middle (P M S : Content) :
    applyOperation (P ++ M ++ S) (.delete P.length M.length) = P ++ S := by
  simp only [applyOperation, List.append_assoc]
  rw [take_len_append, ← List.drop_drop, drop_len_append, drop_len_append]

theorem apply_insert_front (P N S : Content) :
    applyOperation (P ++ S) (.insert P.length N) = P ++ N ++ S := by
  simp only [applyOperation]
  rw [take_len_append, drop_len_append, List.append_assoc]

/-- The trimmed edit script transforms `P ++ M ++ S` into `P ++ N ++ S`. -/
theorem trimOps_apply (P M N S : Content) :
    (trimOps P.length M.length N).foldl applyOperation (P ++ M ++ S) = P ++ N ++ S := by
  by_cases hM : M = []
  · by_cases hN : N = []
    · subst hM hN
      simp [trimOps]
    · subst hM
      have hops : trimOps P.length ([] : Content).length N = [Operation.insert P.length N] := by
        simp [trimOps, hN]
      rw [hops]
      show applyOperation (P ++ [] ++ S) (.insert P.length N) = P ++ N ++ S
      rw [List.append_nil, apply_insert_front]
  · have hMlen : M.length ≠ 0 := by simpa [List.length_eq_zero] using hM
    by_cases hN : N = []
    · subst hN
      have hops : trimOps P.length M.length ([] : Content) = [Operation.delete P.length M.length] := by
        simp [trimOps, hMlen]
      rw [hops]
      show applyOperation (P ++ M ++ S) (.delete P.length M.length) = P ++ [] ++ S
      rw [apply_delete_middle, List.append_nil]
    · have hops : trimOps P.length M.length N =
          [Operation.delete P.length M.length, Operation.insert P.length N] := by
        simp [trimOps, hMlen, hN]
      rw [hops]
      show applyOperation (applyOperation (P ++ M ++ S) (.delete P.length M.length))
          (.insert P.length N) = P ++ N ++ S
      rw [apply_delete_middle, apply_insert_front]

/-- Key correctness of the diff: applying the computed edit script to the
old content yields the new content. -/
theorem diffOps_apply (old nc : Content) :
    (diffOps old nc).foldl applyOperation old = nc := by
  have hp1 : commonPrefixLen old nc ≤ old.length := commonPrefixLen_le_left old nc
  have hp2 : commonPrefixLen old nc ≤ nc.length := commonPrefixLen_le_right old nc
  set p := commonPrefixLen old nc with hpdef
  set A := old.drop p with hAdef
  set B := nc.drop p with hBdef
  set s := commonPrefixLen A.reverse B.reverse with hsdef
  have hs1 : s ≤ A.length := by
    simpa using commonPrefixLen_le_left A.reverse B.reverse
  have hs2 : s ≤ B.length := by
    simpa using commonPrefixLen_le_right A.reverse B.reverse
  -- the shared prefix and shared suffix
  have hP : old.take p = nc.take p := commonPrefixLen_take old nc
  have hSuf : A.drop (A.length - s) = B.drop (B.length - s) := by
    have h := commonPrefixLen_take A.reverse B.reverse
    rw [← hsdef, List.take_reverse, List.take_reverse] at h
    exact List.reverse_injective h
  -- decomposition old = P ++ M ++ S, nc = P ++ N ++ S
  have hold : old = old.take p ++ (A.take (A.length - s) ++ A.drop (A.length - s)) := by
    rw [List.take_append_drop, hAdef, List.take_append_drop]
  have hnew : nc = old.take p ++ (B.take (B.length - s) ++ A.drop (A.length - s)) := by
    rw [hSuf, List.take_append_drop, hP, hBdef, List.take_append_drop]
  have hPlen : (old.take p).length = p := by
    rw [List.length_take]
    exact min_eq_left hp1
  have hMlen : (A.take (A.length - s)).length = old.length - p - s := by
    rw [List.length_take, hAdef, List.length_drop]
    exact min_eq_left (Nat.sub_le _ _)
  have hNins : (nc.drop p).take (nc.length - p - s) = B.take (B.length - s) := by
    rw [hBdef, List.length_drop]
  have hops : diffOps old nc =
      trimOps (old.take p).length (A.take (A.length - s)).length (B.take (B.length - s)) := by
    show trimOps p (old.length - p - s) ((nc.drop p).take (nc.length - p - s)) = _
    rw [hPlen, hMlen, hNins]
  rw [hops]
  calc (trimOps (old.take p).length (A.take (A.length - s)).length
          (B.take (B.length - s))).foldl applyOperation old
      = (trimOps (old.take p).length (A.take (A.length - s)).length
          (B.take (B.length - s))).foldl applyOperation
          (old.take p ++ A.take (A.length - s) ++ A.drop (A.length - s)) := by
        rw [List.append_assoc, ← hold]
    _ = old.take p ++ B.take (B.length - s) ++ A.drop (A.length - s) :=
        trimOps_apply _ _ _ _
    _ = nc := by rw [List.append_assoc, ← hnew]

theorem applyDelta_record (t : Nat) (old : Content) (nc : Option Content) :
    applyDelta old (record t old nc) = nc.getD [] := by
  simpa [applyDelta, record] using diffOps_apply old (nc.getD [])

/-! ## Session run: watcher drives recorder and aggregator

Modelled from the spec (watchers.rs / sessions.rs are not in the available
sources): the watcher hands each settled event `(path, new_content_or_absent)`
to the Delta Recorder, which diffs against the last-observed-content cache
(seeded from the parent snapshot's tree), updates the cache and appends the
delta to the open session's `DeltaLog` under that path (spec §4.1–4.3).
Events are processed sequentially, each at a strictly later clock tick.
Absent content (a deletion) is cached as empty content, matching a
content-addressable tree in which an absent path resolves to no content. -/

/-- Per-project running state of a watch: last-observed-content cache,
the open session's delta log, and the clock. -/
structure RecorderState where
  cache : String → Content
  log : String → List Delta
  now : Nat

/-- Modelled from the spec: processing one settled event `(path, content?)`
records a delta for `path` against the cached old content, updates the
cache, and advances the clock (spec §4.1, §4.2). -/
def stepEdit (st : RecorderState) (e : String × Option Content) : RecorderState :=
  { cache := fun q => if q = e.1 then (e.2).getD [] else st.cache q,
    log := fun q => if q = e.1 then st.log q ++ [record st.now (st.cache e.1) e.2] else st.log q,
    now := st.now + 1 }

/-- Modelled from the spec: a fresh session's cache is seeded from the
parent snapshot's tree and its delta log is empty (spec §4.2, §4.3). -/
def initState (parent : String → Content) (t0 : Nat) : RecorderState :=
  { cache := parent, log := fun _ => [], now := t0 }

/-- Modelled from the spec: a session processes its sequence of settled
file edits in order (spec §4.1). -/
def runSession (parent : String → Content) (t0 : Nat)
    (edits : List (String × Option Content)) : RecorderState :=
  edits.foldl stepEdit (initState parent t0)

/-- Modelled from the spec: replaying one file's recorded deltas, in order,
against that file's content in the parent snapshot's tree (spec §3
invariant 3). -/
def replayFile (parentContent : Content) (ds : List Delta) : Content :=
  ds.foldl applyDelta parentContent

theorem foldl_stepEdit_replay (parent : String → Content)
    (edits : List (String × Option Content)) :
    ∀ st : RecorderState,
      (∀ q, replayFile (parent q) (st.log q) = st.cache q) →
      ∀ q, replayFile (parent q) ((edits.foldl stepEdit st).log q) =
        (edits.foldl stepEdit st).cache q := by
  induction edits with
  | nil => exact fun st h q => h q
  | cons e rest ih =>
    intro st h q
    refine ih (stepEdit st e) (fun r => ?_) q
    by_cases hr : r = e.1
    · subst hr
      simp only [stepEdit, eq_self_iff_true, if_true]
      rw [replayFile, List.foldl_append]
      show applyDelta (replayFile (parent e.1) (st.log e.1)) _ = _
      rw [h e.1, applyDelta_record]
    · simp only [stepEdit, if_neg hr]
      exact h r

theorem foldl_stepEdit_sorted (edits : List (String × Option Content)) :
    ∀ st : RecorderState,
      (∀ q, List.Pairwise (· < ·) ((st.log q).map Delta.timestamp) ∧
        ∀ x ∈ (st.log q).map Delta.timestamp, x < st.now) →
      ∀ q, List.Pairwise (· < ·) (((edits.foldl stepEdit st).log q).map Delta.timestamp) ∧
        ∀ x ∈ ((edits.foldl stepEdit st).log q).map Delta.timestamp,
          x < (edits.foldl stepEdit st).now := by
  induction edits with
  | nil => exact fun st h q => h q
  | cons e rest ih =>
    intro st h q
    refine ih (stepEdit st e) (fun r => ?_) q
    by_cases hr : r = e.1
    · subst hr
      simp only [stepEdit, eq_self_iff_true, if_true, List.map_append, List.map_cons,
        List.map_nil]
      constructor
      · rw [List.pairwise_append]
        refine ⟨(h e.1).1, List.pairwise_singleton _ _, ?_⟩
        intro a ha b hb
        rw [List.mem_singleton] at hb
        subst hb
        exact (h e.1).2 a ha
      · intro x hx
        rcases List.mem_append.mp hx with hx | hx
        · exact Nat.lt_trans ((h e.1).2 x hx) (Nat.lt_succ_self _)
        · rw [List.mem_singleton] at hx
          subst hx
          exact Nat.lt_succ_self _
    · simp only [stepEdit, if_neg hr]
      exact ⟨(h r).1, fun x hx => Nat.lt_trans ((h r).2 x hx) (Nat.lt_succ_self _)⟩

/-! ## Snapshot Writer / Content Store -/

/-- Modelled from the spec: `Session = {project_id, started_at, delta_log,
parent_snapshot_id}` (spec §3); sessions.rs is not in the available
sources.  The delta log is the mapping path → ordered deltas, as entries. -/
structure Session where
  project_id : String
  started_at : Nat
  delta_log : List (String × List Delta)
  parent_snapshot_id : Option Nat

/-- Modelled from the spec: `Snapshot = {commit_id, tree_id, parent_commit_id,
delta_log_blob_id}` (spec §3); here the commit carries its tree and its
serialized delta log directly. -/
structure Snapshot where
  commit_id : Nat
  tree : List (String × Content)
  parent_commit_id : Option Nat
  delta_log_blob : List (String × List Delta)
deriving DecidableEq

/-- The content store state for one project: its commits and the project's
dedicated ref. -/
structure Store where
  commits : List Snapshot
  refTip : Option Nat
deriving DecidableEq

/-- Modelled from the spec: `flush(session)` builds the current tree, writes
a commit whose parent is `session.parent_snapshot_id`, and advances the
project's ref; flushing a session whose `DeltaLog` is empty is a no-op: no
new Snapshot, no new commit, ref unchanged (spec §4.3, §4.4, §8). -/
def flush (store : Store) (session : Session)
    (currentTree : List (String × Content)) : Store :=
  if session.delta_log.isEmpty then store
  else
    { commits := store.commits ++
        [⟨store.commits.length + 1, currentTree, session.parent_snapshot_id,
          session.delta_log⟩],
      refTip := some (store.commits.length + 1) }

/-! ## Command layer (src-tauri/src/main.rs)

The tauri commands are embedded from main.rs.  Their collaborators —
`projects::Storage`, `fs::list_files`, `watchers::get_meta_commit`,
`deltas::list_current_deltas`, `watchers::watch`, `watchers::unwatch`,
`Project::from_path`, `git2::Repository::open` — are not in the available
sources and are modelled by an environment record following the spec's
external-interface contracts (spec §6). -/

/-- `Project = {id, path}` (projects.rs, spec §3). -/
structure Project where
  id : String
  path : String
deriving DecidableEq

/-- Modelled from the spec: the repository opened at a project path exposes
the latest meta commit's tree, as entries path → blob content
(`get_latest_snapshot` / `resolve_path`, spec §4.4). -/
structure Repo where
  metaTree : List (String × String)
deriving DecidableEq

/-- The environment a command runs against: the project registry's state and
the results of each external call the command bodies make.  Each field is
modelled from the spec's collaborator contracts (spec §6). -/
structure Env where
  registry : List Project
  repoAt : String → Except String Repo
  listFilesAt : String → Except String (List String)
  currentDeltasAt : String → Except String (List (String × List Delta))
  unwatchRes : Project → Except String Unit
  deleteRes : String → Except String Unit
  fromPath : String → Except String Project
  addRes : Project → Except String Unit
  watchRes : Project → Except String Unit

/-- Result of one command invocation as observed by the host: a returned
`Ok` value, a returned explicit failure, or an abort of the process
(`panic!` / `unwrap` in the Rust source). -/
inductive Outcome (α : Type) where
  | ok : α → Outcome α
  | err : String → Outcome α
  | panicked : String → Outcome α
deriving DecidableEq

/-- Modelled from the spec: `get_project(id) -> Project?` looks the id up in
the registry (spec §6); projects.rs is not in the available sources. -/
def getProject (env : Env) (pid : String) : Option Project :=
  env.registry.find? (fun p => p.id == pid)

/-- Embeds `list_project_files` (main.rs lines 29–55): look up the project,
open its repository (`panic!` on failure), list the current directory
(`?` propagates the error), then keep exactly the listed files that resolve
in the latest meta commit's tree. -/
def list_project_files (env : Env) (project_id : String) : Outcome (List String) :=
  match getProject env project_id with
  | some project =>
    match env.repoAt project.path with
    | .error e => .panicked ("failed to open: " ++ e)
    | .ok repo =>
      match env.listFilesAt project.path with
      | .error e => .err e
      | .ok files =>
        .ok (files.filterMap (fun file =>
          if (repo.metaTree.find? (fun entry => entry.1 == file)).isSome then some file
          else none))
  | none => .err "Project not found"

/-- Embeds `read_project_file` (main.rs lines 57–81): look up the project,
open its repository (`panic!` on failure), resolve the path in the latest
meta commit's tree; return its blob content when present, `None` when
absent. -/
def read_project_file (env : Env) (project_id file_path : String) :
    Outcome (Option String) :=
  match getProject env project_id with
  | some project =>
    match env.repoAt project.path with
    | .error e => .panicked ("failed to open: " ++ e)
    | .ok repo =>
      match repo.metaTree.find? (fun entry => entry.1 == file_path) with
      | some entry => .ok (some entry.2)
      | none => .ok none
  | none => .err "Project not found"

/-- Embeds `list_deltas` (main.rs lines 122–134): look up the project, then
return `deltas::list_current_deltas(project_path)` (`?` propagates the
error). -/
def list_deltas (env : Env) (project_id : String) :
    Outcome (List (String × List Delta)) :=
  match getProject env project_id with
  | some project =>
    match env.currentDeltasAt project.path with
    | .error e => .err e
    | .ok ds => .ok ds
  | none => .err "Project not found"

/-- Embeds `delete_project` (main.rs lines 111–120): if the project is in
the registry, unwatch it (`?` propagates the error); in every case invoke
the registry deletion.  The second component is the trace of the external
calls made, in order. -/
def delete_project (env : Env) (id : String) : Outcome Unit × List String :=
  match getProject env id with
  | some project =>
    match env.unwatchRes project with
    | .error e => (.err e, ["unwatch"])
    | .ok _ =>
      match env.deleteRes id with
      | .error e => (.err e, ["unwatch", "delete_storage"])
      | .ok _ => (.ok (), ["unwatch", "delete_storage"])
  | none =>
    match env.deleteRes id with
    | .error e => (.err e, ["delete_storage"])
    | .ok _ => (.ok (), ["delete_storage"])

/-- Embeds `add_project` (main.rs lines 83–104): reject when some registered
project already has this path; otherwise build the project from the path,
persist it, then start its watcher, and return it.  The second component is
the trace of the external calls made, in order. -/
def add_project (env : Env) (pth : String) : Outcome Project × List String :=
  if env.registry.any (fun p => p.path == pth) then
    (.err "Project already exists", [])
  else
    match env.fromPath pth with
    | .error e => (.err e, [])
    | .ok project =>
      match env.addRes project with
      | .error e => (.err e, ["add_storage"])
      | .ok _ =>
        match env.watchRes project with
        | .error e => (.err e, ["add_storage", "watch"])
        | .ok _ => (.ok project, ["add_storage", "watch"])

/-! ## Concrete environments used as witnesses -/

/-- A registry with one project whose repository cannot be opened. -/
def envNoRepo : Env :=
  { registry := [⟨"p1", "path1"⟩],
    repoAt := fun _ => .error "could not open repository",
    listFilesAt := fun _ => .ok [],
    currentDeltasAt := fun _ => .ok [],
    unwatchRes := fun _ => .ok (),
    deleteRes := fun _ => .ok (),
    fromPath := fun s => .ok ⟨"new", s⟩,
    addRes := fun _ => .ok (),
    watchRes := fun _ => .ok () }

/-- A snapshot tree holding two files. -/
def repoDemo : Repo :=
  ⟨[("a.txt", "hello"), ("b.txt", "world")]⟩

/-- A registry with one healthy project: its repository opens to `repoDemo`
and its directory listing holds `a.txt` and `c.txt`. -/
def envDemo : Env :=
  { registry := [⟨"p1", "path1"⟩],
    repoAt := fun _ => .ok repoDemo,
    listFilesAt := fun _ => .ok ["a.txt", "c.txt"],
    currentDeltasAt := fun _ => .ok [],
    unwatchRes := fun _ => .ok (),
    deleteRes := fun _ => .ok (),
    fromPath := fun s => .ok ⟨"new", s⟩,
    addRes := fun _ => .ok (),
    watchRes := fun _ => .ok () }

/-- Membership in the tree-filtered listing used by `list_project_files`. -/
theorem mem_filterMap_guard (metaTree : List (String × String))
    (files : List String) (f : String) :
    (f ∈ files.filterMap (fun file =>
        if (metaTree.find? (fun entry => entry.1 == file)).isSome then some file
        else none)) ↔
      f ∈ files ∧ ∃ entry ∈ metaTree, entry.1 = f := by
  rw [List.mem_filterMap]
  constructor
  · rintro ⟨a, ha, hfa⟩
    split at hfa
    case isTrue hc =>
      rw [Option.some_inj] at hfa
      subst hfa
      refine ⟨ha, ?_⟩
      rw [List.find?_isSome] at hc
      obtain ⟨entry, hmem, hbeq⟩ := hc
      exact ⟨entry, hmem, by simpa using hbeq⟩
    case isFalse hc => cases hfa
  · rintro ⟨hmem, entry, hent, hkey⟩
    refine ⟨f, hmem, ?_⟩
    have hc : (metaTree.find? (fun entry => entry.1 == f)).isSome := by
      rw [List.find?_isSome]
      exact ⟨entry, hent, by simpa using hkey⟩
    rw [if_pos hc]

/-! ## The claims -/

/-- C1: For every session flushed to a Snapshot, replaying the session's
DeltaLog file by file against the parent snapshot's tree reproduces exactly
the tree committed by that session's Snapshot.  The committed tree is the
full current working tree at flush time, which is the recorder's final
last-observed-content cache; the parent snapshot's tree seeds that cache. -/
theorem claim_c1_roundtrip (parent : String → Content) (t0 : Nat)
    (edits : List (String × Option Content)) (p : String) :
    replayFile (parent p) ((runSession parent t0 edits).log p) =
      (runSession parent t0 edits).cache p :=
  foldl_stepEdit_replay parent edits (initState parent t0) (fun _ => rfl) p

/-- C2: the claim that every storage error during a caller-facing command
yields an explicit failure with no abort is violated by the code: on a
project whose repository cannot be opened, `list_project_files` and
`read_project_file` hit the `panic!("failed to open: ...")` arm of
main.rs and abort the host process instead of returning an error. -/
theorem claim_c2_repo_open_panics :
    list_project_files envNoRepo "p1" =
        .panicked "failed to open: could not open repository" ∧
      read_project_file envNoRepo "p1" "a.txt" =
        .panicked "failed to open: could not open repository" :=
  ⟨rfl, rfl⟩

/-- C3: for every project id not present in the registry, each of
`list_project_files`, `read_project_file` and `list_deltas` fails with the
"Project not found" condition rather than returning a success value. -/
theorem claim_c3_unknown_project (env : Env) (pid fp : String)
    (h : getProject env pid = none) :
    list_project_files env pid = .err "Project not found" ∧
      read_project_file env pid fp = .err "Project not found" ∧
      list_deltas env pid = .err "Project not found" := by
  unfold list_project_files read_project_file list_deltas
  rw [h]
  exact ⟨rfl, rfl, rfl⟩

theorem claim_c3_unknown_project_witness :
    list_project_files envNoRepo "zz" = .err "Project not found" ∧
      read_project_file envNoRepo "zz" "a.txt" = .err "Project not found" ∧
      list_deltas envNoRepo "zz" = .err "Project not found" :=
  claim_c3_unknown_project envNoRepo "zz" "a.txt" rfl

/-- C4: for every known project whose repository opens and whose directory
listing succeeds, `list_project_files` returns exactly the paths that are
both in the current directory listing and present in the latest snapshot
tree. -/
theorem claim_c4_list_files_intersection (env : Env) (pid : String)
    (project : Project) (repo : Repo) (files : List String)
    (hget : getProject env pid = some project)
    (hrepo : env.repoAt project.path = .ok repo)
    (hfiles : env.listFilesAt project.path = .ok files) :
    ∃ l, list_project_files env pid = .ok l ∧
      ∀ f, f ∈ l ↔ f ∈ files ∧ ∃ entry ∈ repo.metaTree, entry.1 = f := by
  unfold list_project_files
  rw [hget]
  dsimp only
  rw [hrepo, hfiles]
  exact ⟨_, rfl, fun f => mem_filterMap_guard repo.metaTree files f⟩

theorem claim_c4_list_files_intersection_witness :
    ∃ l, list_project_files envDemo "p1" = .ok l ∧
      ∀ f, f ∈ l ↔ f ∈ ["a.txt", "c.txt"] ∧ ∃ entry ∈ repoDemo.metaTree, entry.1 = f :=
  claim_c4_list_files_intersection envDemo "p1" ⟨"p1", "path1"⟩ repoDemo
    ["a.txt", "c.txt"] rfl rfl rfl

/-- C5: for every known project whose repository opens, `read_project_file`
returns the content stored for the path in the latest snapshot tree when
the path is present there, and `None` when it is absent. -/
theorem claim_c5_read_resolves (env : Env) (pid fp : String)
    (project : Project) (repo : Repo)
    (hget : getProject env pid = some project)
    (hrepo : env.repoAt project.path = .ok repo) :
    (∀ content, (fp, content) ∈ repo.metaTree →
        (∀ entry ∈ repo.metaTree, entry.1 = fp → entry.2 = content) →
        read_project_file env pid fp = .ok (some content)) ∧
      ((∀ entry ∈ repo.metaTree, entry.1 ≠ fp) →
        read_project_file env pid fp = .ok none) := by
  constructor
  · intro content hmem huniq
    unfold read_project_file
    rw [hget]
    dsimp only
    rw [hrepo]
    dsimp only
    have hsome : (repo.metaTree.find? (fun entry => entry.1 == fp)).isSome := by
      rw [List.find?_isSome]
      exact ⟨(fp, content), hmem, by simp⟩
    obtain ⟨entry, hent⟩ := Option.isSome_iff_exists.mp hsome
    have hem : entry ∈ repo.metaTree := List.mem_of_find?_eq_some hent
    have hkey : entry.1 = fp := by simpa using List.find?_some hent
    rw [hent]
    dsimp only
    rw [huniq entry hem hkey]
  · intro habs
    unfold read_project_file
    rw [hget]
    dsimp only
    rw [hrepo]
    dsimp only
    have hnone : repo.metaTree.find? (fun entry => entry.1 == fp) = none := by
      rw [List.find?_eq_none]
      intro x hx
      simpa using habs x hx
    rw [hnone]

theorem claim_c5_read_resolves_witness :
    read_project_file envDemo "p1" "a.txt" = .ok (some "hello") ∧
      read_project_file envDemo "p1" "zz.txt" = .ok none :=
  ⟨(claim_c5_read_resolves envDemo "p1" "a.txt" ⟨"p1", "path1"⟩ repoDemo rfl rfl).1
      "hello" (by simp [repoDemo]) (by decide),
    (claim_c5_read_resolves envDemo "p1" "zz.txt" ⟨"p1", "path1"⟩ repoDemo rfl rfl).2
      (by decide)⟩

/-- C6: for every watched project and every file, the sequence of Deltas
recorded for that file is strictly increasing in timestamp. -/
theorem claim_c6_timestamps_increasing (parent : String → Content) (t0 : Nat)
    (edits : List (String × Option Content)) (p : String) :
    List.Pairwise (· < ·)
      (((runSession parent t0 edits).log p).map Delta.timestamp) :=
  (foldl_stepEdit_sorted edits (initState parent t0)
    (fun _ => ⟨List.Pairwise.nil, fun x hx => absurd hx (List.not_mem_nil x)⟩) p).1

/-- C7: flushing a Session whose DeltaLog is empty produces no new Snapshot,
writes no new commit, and leaves the project's ref unchanged. -/
theorem claim_c7_empty_flush_noop (store : Store) (session : Session)
    (currentTree : List (String × Content)) (h : session.delta_log = []) :
    flush store session currentTree = store := by
  simp [flush, h]

theorem claim_c7_empty_flush_noop_witness :
    flush ⟨[], none⟩ ⟨"p1", 0, [], none⟩ [("a.txt", ['h'])] = ⟨[], none⟩ :=
  claim_c7_empty_flush_noop ⟨[], none⟩ ⟨"p1", 0, [], none⟩ [("a.txt", ['h'])] rfl

/-- C8: for every file whose observed new content is absent with non-empty
last-observed content, the recorder produces a Delta whose operations are
exactly the single operation `Delete{0, length_of_old_content}`. -/
theorem claim_c8_full_deletion (t : Nat) (old : Content) (h : old ≠ []) :
    (record t old none).operations = [Operation.delete 0 old.length] := by
  have h0 : old.length ≠ 0 := by simpa [List.length_eq_zero] using h
  simp [record, diffOps, trimOps, commonPrefixLen_nil_right, h0]

theorem claim_c8_full_deletion_witness :
    (record 5 ['a', 'b'] none).operations = [Operation.delete 0 2] :=
  claim_c8_full_deletion 5 ['a', 'b'] (by decide)

/-- C9: for every project id not present in the registry, `delete_project`
returns success without reporting any not-found condition: it skips the
unwatch step and still invokes the registry deletion. -/
theorem claim_c9_delete_unknown_ok (env : Env) (id : String)
    (h : getProject env id = none) (hdel : env.deleteRes id = .ok ()) :
    delete_project env id = (.ok (), ["delete_storage"]) := by
  unfold delete_project
  rw [h, hdel]

theorem claim_c9_delete_unknown_ok_witness :
    delete_project envNoRepo "zz" = (.ok (), ["delete_storage"]) :=
  claim_c9_delete_unknown_ok envNoRepo "zz" rfl rfl

/-- C10: for every path equal to the path of a registered project,
`add_project` fails with "Project already exists" having neither added a
project to storage nor started a watcher; on success it persists the new
project and starts its watcher before returning the project. -/
theorem claim_c10_add_project (env : Env) (pth : String) :
    ((∃ p ∈ env.registry, p.path = pth) →
        add_project env pth = (.err "Project already exists", [])) ∧
      (∀ project, (∀ p ∈ env.registry, p.path ≠ pth) →
        env.fromPath pth = .ok project → env.addRes project = .ok () →
        env.watchRes project = .ok () →
        add_project env pth = (.ok project, ["add_storage", "watch"])) := by
  constructor
  · rintro ⟨p, hp, hpath⟩
    unfold add_project
    have hc : env.registry.any (fun q => q.path == pth) = true := by
      rw [List.any_eq_true]
      exact ⟨p, hp, by simpa using hpath⟩
    rw [if_pos hc]
  · intro project hnot hfrom hadd hwatch
    unfold add_project
    have hc : env.registry.any (fun q => q.path == pth) = false := by
      rw [List.any_eq_false]
      intro q hq
      simpa using hnot q hq
    rw [if_neg (by simp [hc]), hfrom]
    dsimp only
    rw [hadd]
    dsimp only
    rw [hwatch]

theorem claim_c10_add_project_witness :
    add_project envDemo "path1" = (.err "Project already exists", []) ∧
      add_project envDemo "newpath" = (.ok ⟨"new", "newpath"⟩, ["add_storage", "watch"]) :=
  ⟨(claim_c10_add_project envDemo "path1").1 ⟨⟨"p1", "path1"⟩, by simp [envDemo], rfl⟩,
    (claim_c10_add_project envDemo "newpath").2 ⟨"new", "newpath"⟩ (by decide) rfl rfl rfl⟩

end GitButler
